import Mathlib

/-!
# OpenVINO plugin (dllmain.cpp): device registry, model reshape, pixel/tensor codec

A shallow embedding of `OpenVINO_Plugin/OpenVINO_Plugin/dllmain.cpp`.

* The process-wide globals of the plugin are the fields of `Globals`; every exported
  function is a function on `Globals` (explicit state passing).
* `std::string` is `String`, `std::vector<T>` is `List T`, `std::map` is an association
  list kept in key order, `size_t` values are `Nat` (conversions from `int` go through
  `toSizeT`, which wraps modulo `2 ^ 64`).
* A finite `float` is represented by its exact rational value.  Every float operation the
  plugin performs (byte to float, comparison with 0 and 255, assignment of `0` / `255`,
  float to byte) is exact on finite values, so no rounding has to be modelled.
  NaN and infinities are outside the model.
* Raw memory (`texture.data`, blob buffers, `inputData`) is a `List` indexed from 0.
  Reads use `List.getD`, writes use `List.set`; the theorems carry the length facts that
  put each access in range.  Every `size_t` index the codec computes is then below the
  length of an allocated buffer, so its arithmetic does not wrap and is done in `Nat`.
* The inference backend (`Core`, `CNNNetwork`, `InferRequest`) and OpenCV are external;
  what the plugin hands to them is recorded in the state, what they hand back is a
  parameter.
-/

namespace OpenVINOPlugin

/-! ## Basic types -/

/-- Finite single-precision values, represented by their exact rational value. -/
abbrev Float32 := ℚ

/-- The backend's `SizeVector`, a `std::vector<size_t>`. -/
abbrev SizeVector := List Nat

/-- Result of a call whose C++ body may index a container out of range:
either the call returns a value, or its behaviour is undefined. -/
inductive Outcome (α : Type) where
  | returns (a : α) : Outcome α
  | undefinedBehaviour : Outcome α
  deriving DecidableEq, Repr

/-- Conversion of an `int` to `size_t` (64-bit): reduction modulo `2 ^ 64`. -/
def toSizeT (x : Int) : Nat := Int.toNat (x % 2 ^ 64)

/-- Header of a `cv::Mat` holding 8-bit channels: `rows`, `cols` and channel count.
The pixel bytes are passed separately. -/
structure Mat where
  rows : Int
  cols : Int
  channels : Nat
  deriving DecidableEq, Repr

/-- Number of pixels of a matrix, `cv::Mat::total()`. -/
def Mat.total (m : Mat) : Nat := Int.toNat (m.rows * m.cols)

/-- A `MemoryBlob`: tensor dimensions and the FP32 buffer behind it. -/
structure MemoryBlob where
  dims : SizeVector
  data : List Float32
  deriving DecidableEq, Repr

/-- The part of a `CNNNetwork` the plugin reads and writes: the map from input names to
input shapes (`getInputShapes()`), in the iteration order of `std::map`. -/
structure CNNNetwork where
  inputShapes : List (String × SizeVector)
  deriving DecidableEq, Repr

/-- The part of the inference engine `Core` the plugin writes: the configuration entries
set through `SetConfig`, as `(device, key, value)` in call order. -/
structure Core where
  config : List (String × String × String)
  deriving DecidableEq, Repr

/-- An `ExecutableNetwork`: the network and the device it was loaded to. -/
structure ExecutableNetwork where
  network : CNNNetwork
  device : String
  deriving DecidableEq, Repr

/-- An `InferRequest`, identified by the executable network that created it. -/
structure InferRequest where
  source : ExecutableNetwork
  deriving DecidableEq, Repr

/-- The globals of `dllmain.cpp` (lines 12-33) that the modelled functions touch. -/
structure Globals where
  currentDevice : String
  availableDevices : List String
  allDevices : String
  texture : Mat
  ie : Core
  network : CNNNetwork
  executable_network : Option ExecutableNetwork
  infer_request : Option InferRequest
  deriving DecidableEq, Repr

/-- State of the globals right after the library is loaded. -/
def Globals.initial : Globals :=
  { currentDevice := ""
    availableDevices := []
    allDevices := ""
    texture := ⟨0, 0, 1⟩
    ie := ⟨[]⟩
    network := ⟨[]⟩
    executable_network := none
    infer_request := none }

/-- A counted loop `for (size_t i = 0; i < n; i++) body`, threading the state. -/
def forLoop {σ : Type} (n : Nat) (body : Nat → σ → σ) (s : σ) : σ :=
  (List.range n).foldl (fun acc i => body i acc) s

/-! ## Device registry -/

/-- `GetAvailableDevices` (lines 36-38): the address of `allDevices`, i.e. its content. -/
def GetAvailableDevices (g : Globals) : String := g.allDevices

/-- The test `std::regex_match(device, std::regex("(GPU)(.*)"))` of line 46.
The default grammar is ECMAScript: the whole string has to match, `GPU` literally and then
`.*`, where `.` matches every character except the line terminators LF and CR. -/
def regex_match_GPU (device : String) : Bool :=
  match device.data with
  | 'G' :: 'P' :: 'U' :: rest => rest.all (fun c => c != Char.ofNat 10 && c != Char.ofNat 13)
  | _ => false

/-- `ie.SetConfig({ {CONFIG_KEY(CACHE_DIR), "cache"} }, device)` (line 47). -/
def Core.SetConfigCacheDir (ie : Core) (device : String) : Core :=
  { ie with config := ie.config ++ [(device, "CACHE_DIR", "cache")] }

/-- `SetDeviceCache` (lines 41-50). -/
def SetDeviceCache (g : Globals) : Globals :=
  g.availableDevices.foldl
    (fun g device =>
      if regex_match_GPU device then { g with ie := g.ie.SetConfigCacheDir device } else g)
    g

/-- Body of the loop of lines 81-84, for one `device`. -/
def appendDevice (availableDevices : List String) (allDevices : String) (device : String) :
    String :=
  let allDevices := allDevices ++ device
  allDevices ++
    (if device = availableDevices.getD (availableDevices.length - 1) "" then "" else ",")

/-- `InitializeOpenVINO` (lines 68-87).  `net` is the network the backend returns for
`modelPath` after `setBatchSize(1)` and `PrepareBlobs()` (lines 71-75, which only touch the
network and the blob names); `backendDevices` is the result of `ie.GetAvailableDevices()`. -/
def InitializeOpenVINO (g : Globals) (net : CNNNetwork) (backendDevices : List String) :
    Globals :=
  let g := { g with network := net }
  let g := { g with availableDevices := backendDevices }
  let g := { g with availableDevices := g.availableDevices.reverse }
  let g := g.availableDevices.foldl
    (fun g device => { g with allDevices := appendDevice g.availableDevices g.allDevices device })
    g
  SetDeviceCache g

/-! ## Model handle -/

/-- The assignment `m[k] = v` on a `std::map` kept as a key-ordered association list:
replaces the value of an existing key, otherwise inserts at the ordered position. -/
def mapAssign : List (String × SizeVector) → String → SizeVector → List (String × SizeVector)
  | [], k, v => [(k, v)]
  | (k', v') :: m, k, v =>
    if k' = k then (k, v) :: m
    else if k < k' then (k, v) :: (k', v') :: m
    else (k', v') :: mapAssign m k v

/-- `network.reshape(input_shapes)` (line 108): the network takes the shapes it is given. -/
def CNNNetwork.reshape (_net : CNNNetwork) (input_shapes : List (String × SizeVector)) :
    CNNNetwork :=
  { inputShapes := input_shapes }

/-- `SetInputDims` (lines 90-112).  Dereferencing `begin()` of an empty map and indexing
`input_shape[3]` of a shape of rank below 4 are undefined. -/
def SetInputDims (g : Globals) (width height : Int) : Outcome Globals :=
  let input_shapes := g.network.inputShapes
  match input_shapes with
  | [] => Outcome.undefinedBehaviour
  | (input_name, input_shape) :: _ =>
    if input_shape.length < 4 then Outcome.undefinedBehaviour
    else
      let input_shape := input_shape.set 0 1
      let input_shape := input_shape.set 2 (toSizeT height)
      let input_shape := input_shape.set 3 (toSizeT width)
      let input_shapes := mapAssign input_shapes input_name input_shape
      Outcome.returns
        { g with
          network := g.network.reshape input_shapes
          texture := ⟨height, width, 4⟩ }

/-! ## Session -/

/-- `ie.LoadNetwork(network, currentDevice)` (line 120). -/
def Core.LoadNetwork (_ie : Core) (network : CNNNetwork) (device : String) :
    ExecutableNetwork :=
  { network := network, device := device }

/-- `executable_network.CreateInferRequest()` (line 122). -/
def ExecutableNetwork.CreateInferRequest (e : ExecutableNetwork) : InferRequest :=
  { source := e }

/-- `UploadModelToDevice` (lines 115-125).  `availableDevices[deviceNum]` converts the
`int` index to `size_t` and reads the vector without a bounds check; an index outside the
vector is undefined behaviour.  The returned pointer is `&currentDevice`, i.e. its content. -/
def UploadModelToDevice (g : Globals) (deviceNum : Int) : Outcome (Globals × String) :=
  match g.availableDevices[toSizeT deviceNum]? with
  | none => Outcome.undefinedBehaviour
  | some device =>
    let g := { g with currentDevice := device }
    let g := { g with executable_network := some (g.ie.LoadNetwork g.network g.currentDevice) }
    let g := { g with
      infer_request := g.executable_network.map ExecutableNetwork.CreateInferRequest }
    Outcome.returns (g, g.currentDevice)

/-! ## Pixel/tensor codec -/

/-- Conversion `unsigned char` to `float` (line 151): exact. -/
def ucharToFloat (b : Nat) : Float32 := (b : ℚ)

/-- Truncation toward zero, the integral part of a float. -/
def truncToInt (v : Float32) : Int := if v < 0 then -⌊-v⌋ else ⌊v⌋

/-- Conversion `float` to `unsigned char` (lines 194-196): truncation toward zero, then
the low 8 bits.  For a value in `[0, 256)` this is its floor. -/
def floatToUchar (v : Float32) : Nat := Int.toNat (truncToInt v % 256)

/-- `PrepareInput` (lines 128-154).  `texture_data` is the byte buffer behind
`texture.data`, `minput` the input blob of the request; the result is the blob with its
buffer filled. -/
def PrepareInput (texture_data : List Nat) (minput : MemoryBlob) : MemoryBlob :=
  let num_channels := minput.dims.getD 1 0
  let H := minput.dims.getD 2 0
  let W := minput.dims.getD 3 0
  let nPixels := W * H
  { minput with
    data :=
      forLoop nPixels
        (fun pixel data =>
          forLoop num_channels
            (fun ch data =>
              data.set (ch * nPixels + pixel)
                (ucharToFloat (texture_data.getD (pixel * num_channels + ch) 0)))
            data)
        minput.data }

/-- The statement `if (data_img[j] < 0) data_img[j] = 0;` (lines 184, 187, 190). -/
def clampLow (data_img : List Float32) (j : Nat) : List Float32 :=
  if data_img.getD j 0 < 0 then data_img.set j 0 else data_img

/-- The statement `if (data_img[j] > 255) data_img[j] = 255;` (lines 185, 188, 191). -/
def clampHigh (data_img : List Float32) (j : Nat) : List Float32 :=
  if data_img.getD j 0 > 255 then data_img.set j 255 else data_img

/-- Body of the loop of `ProcessOutput` (lines 176-197) for pixel `i`; the state is the
scratch vector `data_img` and the bytes behind `texture.data`. -/
def decodePixel (output_data : List Float32) (num_channels nPixels i : Nat)
    (s : List Float32 × List Nat) : List Float32 × List Nat :=
  let data_img := s.1
  let texture_data := s.2
  let data_img := data_img.set (i * num_channels) (output_data.getD i 0)
  let data_img := data_img.set (i * num_channels + 1) (output_data.getD (i + nPixels) 0)
  let data_img := data_img.set (i * num_channels + 2) (output_data.getD (i + 2 * nPixels) 0)
  let data_img := clampLow data_img (i * num_channels)
  let data_img := clampHigh data_img (i * num_channels)
  let data_img := clampLow data_img (i * num_channels + 1)
  let data_img := clampHigh data_img (i * num_channels + 1)
  let data_img := clampLow data_img (i * num_channels + 2)
  let data_img := clampHigh data_img (i * num_channels + 2)
  let texture_data :=
    texture_data.set (i * num_channels) (floatToUchar (data_img.getD (i * num_channels) 0))
  let texture_data :=
    texture_data.set (i * num_channels + 1)
      (floatToUchar (data_img.getD (i * num_channels + 1) 0))
  let texture_data :=
    texture_data.set (i * num_channels + 2)
      (floatToUchar (data_img.getD (i * num_channels + 2) 0))
  (data_img, texture_data)

/-- `ProcessOutput` (lines 157-198).  `moutput` is the output blob of the request,
`texture_data` the bytes behind `texture.data`; the result is those bytes after the call. -/
def ProcessOutput (moutput : MemoryBlob) (texture_data : List Nat) : List Nat :=
  let output_data := moutput.data
  let num_channels := moutput.dims.getD 1 0
  let H := moutput.dims.getD 2 0
  let W := moutput.dims.getD 3 0
  let nPixels := W * H
  let data_img : List Float32 := List.replicate (nPixels * num_channels) 0
  (forLoop nPixels (decodePixel output_data num_channels nPixels) (data_img, texture_data)).2

/-! ## Inference orchestrator -/

/-- Modelled from the spec: `cv::cvtColor(.., cv::COLOR_RGBA2RGB)` is OpenCV code, not part
of this repository.  Per the spec ("strip alpha", "an RGBA to RGB channel-drop precedes
packing") it keeps bytes 0, 1, 2 of every 4-byte pixel and drops byte 3. -/
def dropAlpha : List Nat → List Nat
  | r :: g :: b :: _ :: rest => r :: g :: b :: dropAlpha rest
  | _ => []

/-- Modelled from the spec: `cv::cvtColor(.., cv::COLOR_RGB2RGBA)` is OpenCV code, not part
of this repository.  Per the spec ("restore an alpha channel, full opacity by convention")
it copies the 3 bytes of every pixel and appends the alpha byte 255. -/
def addAlpha : List Nat → List Nat
  | r :: g :: b :: rest => r :: g :: b :: 255 :: addAlpha rest
  | _ => []

/-- The call `cv::cvtColor(texture, texture, cv::COLOR_RGBA2RGB)` of line 206 on a matrix
of `texture.total()` pixels: new header with 3 channels, new pixel bytes. -/
def cvtColor_RGBA2RGB (texture : Mat) (texture_data : List Nat) : Mat × List Nat :=
  ({ texture with channels := 3 }, dropAlpha (texture_data.take (texture.total * 4)))

/-- The call `cv::cvtColor(texture, texture, cv::COLOR_RGB2RGBA)` of line 216. -/
def cvtColor_RGB2RGBA (texture : Mat) (texture_data : List Nat) : Mat × List Nat :=
  ({ texture with channels := 4 }, addAlpha (texture_data.take (texture.total * 3)))

/-- `std::memcpy(dst, src, n)`: the first `n` bytes of `dst` are replaced by those of
`src`. -/
def memcpy (dst src : List Nat) (n : Nat) : List Nat :=
  src.take n ++ dst.drop n

/-- `PerformInference` (lines 201-219).  `texture` is the header of the global matrix,
`minput` the input blob of the current request, `Infer` the backend's synchronous
inference (from the filled input blob to the output blob), `inputData` the caller's
buffer.  The result is the header after the call and the caller's buffer after the call. -/
def PerformInference (texture : Mat) (minput : MemoryBlob) (Infer : MemoryBlob → MemoryBlob)
    (inputData : List Nat) : Mat × List Nat :=
  let texture_data := inputData
  let (texture, texture_data) := cvtColor_RGBA2RGB texture texture_data
  let minput := PrepareInput texture_data minput
  let moutput := Infer minput
  let texture_data := ProcessOutput moutput texture_data
  let (texture, texture_data) := cvtColor_RGB2RGBA texture texture_data
  (texture, memcpy inputData texture_data (texture.total * 4))

/-! ## Auxiliary definitions used in the proofs -/

/-- Inner loop of `PrepareInput` (lines 149-152): all channels of one pixel. -/
def encodeChannels (texture_data : List Nat) (num_channels nPixels pixel : Nat)
    (data : List Float32) : List Float32 :=
  forLoop num_channels
    (fun ch data =>
      data.set (ch * nPixels + pixel)
        (ucharToFloat (texture_data.getD (pixel * num_channels + ch) 0)))
    data

/-- Clamping to the closed range `[0, 255]`: below 0 gives 0, above 255 gives 255. -/
def clamp255 (v : Float32) : Float32 :=
  if v < 0 then 0 else if v > 255 then 255 else v

/-- The byte `ProcessOutput` stores for the tensor value `v`: clamp, then narrow. -/
def decodedByte (v : Float32) : Nat := floatToUchar (clamp255 v)

/-- The configuration entries `SetDeviceCache` adds for a list of devices. -/
def cacheEntries (devices : List String) : List (String × String × String) :=
  (devices.filter regex_match_GPU).map (fun d => (d, "CACHE_DIR", "cache"))

/-- The spec's reading of the GPU family: the identifier begins with the letters GPU. -/
def beginsWithGPU (device : String) : Bool :=
  ['G', 'P', 'U'].isPrefixOf device.data

/-- No line terminator (LF, CR) occurs in the identifier. -/
def noLineTerminator (device : String) : Bool :=
  device.data.all (fun c => c != Char.ofNat 10 && c != Char.ofNat 13)

/-! ## Loops and memory cells -/

theorem forLoop_succ {σ : Type} (n : Nat) (body : Nat → σ → σ) (s : σ) :
    forLoop (n + 1) body s = body n (forLoop n body s) := by
  simp [forLoop, List.range_succ, List.foldl_append]

/-- Invariant rule for counted loops. -/
theorem forLoop_invariant {σ : Type} (P : Nat → σ → Prop) (n : Nat) (body : Nat → σ → σ)
    (s : σ) (h0 : P 0 s) (hstep : ∀ i, i < n → ∀ t, P i t → P (i + 1) (body i t)) :
    P n (forLoop n body s) := by
  induction n with
  | zero => exact h0
  | succ k ih =>
    rw [forLoop_succ]
    exact hstep k (Nat.lt_succ_self k) _
      (ih (fun i hi t ht => hstep i (Nat.lt_succ_of_lt hi) t ht))

theorem getD_set_eq {α : Type} (l : List α) (i : Nat) (a d : α) (h : i < l.length) :
    (l.set i a).getD i d = a := by
  simp [List.getD_eq_getElem?_getD, h]

theorem getD_set_ne {α : Type} (l : List α) (i j : Nat) (a d : α) (h : i ≠ j) :
    (l.set i a).getD j d = l.getD j d := by
  simp [List.getD_eq_getElem?_getD, List.getElem?_set_ne h]

theorem getElem?_of_getD {α : Type} (l : List α) (i : Nat) (d : α) (h : i < l.length) :
    l[i]? = some (l.getD i d) := by
  simp [List.getD_eq_getElem?_getD, List.getElem?_eq_getElem h]

/-! ## Planar and interleaved index maps -/

theorem planar_lt {n C c p : Nat} (hc : c < C) (hp : p < n) : c * n + p < C * n := by
  have h : (c + 1) * n ≤ C * n := Nat.mul_le_mul_right n hc
  rw [Nat.add_mul, Nat.one_mul] at h
  omega

theorem planar_inj {n c p c' p' : Nat} (hp : p < n) (hp' : p' < n)
    (h : c * n + p = c' * n + p') : c = c' ∧ p = p' := by
  have hn : 0 < n := by omega
  have h1 : (c * n + p) / n = c := by
    rw [Nat.add_comm, Nat.add_mul_div_right _ _ hn, Nat.div_eq_of_lt hp, Nat.zero_add]
  have h2 : (c' * n + p') / n = c' := by
    rw [Nat.add_comm, Nat.add_mul_div_right _ _ hn, Nat.div_eq_of_lt hp', Nat.zero_add]
  have hc : c = c' := by rw [← h1, ← h2, h]
  subst hc
  exact ⟨rfl, by omega⟩

theorem planar_surj {n C j : Nat} (hj : j < C * n) :
    ∃ c p, c < C ∧ p < n ∧ c * n + p = j := by
  have hn : 0 < n := by
    rcases Nat.eq_zero_or_pos n with h | h
    · subst h; simp at hj
    · exact h
  refine ⟨j / n, j % n, ?_, Nat.mod_lt _ hn, ?_⟩
  · exact (Nat.div_lt_iff_lt_mul hn).2 hj
  · rw [Nat.mul_comm]; exact Nat.div_add_mod j n

/-! ## Encode -/

theorem PrepareInput_data (tex : List Nat) (b : MemoryBlob) :
    (PrepareInput tex b).data =
      forLoop (b.dims.getD 3 0 * b.dims.getD 2 0)
        (encodeChannels tex (b.dims.getD 1 0) (b.dims.getD 3 0 * b.dims.getD 2 0)) b.data :=
  rfl

theorem PrepareInput_dims (tex : List Nat) (b : MemoryBlob) :
    (PrepareInput tex b).dims = b.dims := rfl

theorem encodeChannels_spec (tex : List Nat) (C n px : Nat) (d : List Float32)
    (hd : d.length = C * n) (hpx : px < n) :
    (encodeChannels tex C n px d).length = C * n ∧
    ∀ c p, c < C → p < n →
      (encodeChannels tex C n px d).getD (c * n + p) 0 =
        if p = px then ucharToFloat (tex.getD (px * C + c) 0) else d.getD (c * n + p) 0 := by
  unfold encodeChannels
  have key := forLoop_invariant
    (fun j (t : List Float32) => t.length = C * n ∧
      ∀ c p, c < C → p < n → t.getD (c * n + p) 0 =
        if p = px ∧ c < j then ucharToFloat (tex.getD (px * C + c) 0)
        else d.getD (c * n + p) 0)
    C (fun ch data => data.set (ch * n + px) (ucharToFloat (tex.getD (px * C + ch) 0))) d
    ⟨hd, by intro c p _ _; simp⟩
    (by
      intro j hj t ⟨hlen, ht⟩
      refine ⟨by simpa using hlen, ?_⟩
      intro c p hc hp
      by_cases hcp : c = j ∧ p = px
      · obtain ⟨rfl, rfl⟩ := hcp
        rw [getD_set_eq _ _ _ _ (by rw [hlen]; exact planar_lt hc hp)]
        simp
      · have hne : j * n + px ≠ c * n + p := by
          intro he
          have := planar_inj hpx hp he
          exact hcp ⟨this.1.symm, this.2.symm⟩
        rw [getD_set_ne _ _ _ _ _ hne, ht c p hc hp]
        by_cases h1 : p = px
        · have : c ≠ j := fun h => hcp ⟨h, h1⟩
          have e1 : (c < j + 1) = (c < j) := by
            apply propext; constructor <;> intro h <;> omega
          simp only [h1, true_and, e1]
        · simp [h1])
  dsimp only at key
  refine ⟨key.1, ?_⟩
  intro c p hc hp
  rw [key.2 c p hc hp]
  by_cases h1 : p = px <;> simp [h1, hc]

theorem encodePixels_spec (tex : List Nat) (C n : Nat) (d : List Float32)
    (hd : d.length = C * n) :
    (forLoop n (encodeChannels tex C n) d).length = C * n ∧
    ∀ c p, c < C → p < n →
      (forLoop n (encodeChannels tex C n) d).getD (c * n + p) 0 =
        ucharToFloat (tex.getD (p * C + c) 0) := by
  have key := forLoop_invariant
    (fun k (t : List Float32) => t.length = C * n ∧
      ∀ c p, c < C → p < n → t.getD (c * n + p) 0 =
        if p < k then ucharToFloat (tex.getD (p * C + c) 0) else d.getD (c * n + p) 0)
    n (encodeChannels tex C n) d
    ⟨hd, by intro c p _ _; simp⟩
    (by
      intro k hk t ⟨hlen, ht⟩
      have hs := encodeChannels_spec tex C n k t hlen hk
      refine ⟨hs.1, ?_⟩
      intro c p hc hp
      rw [hs.2 c p hc hp]
      by_cases h1 : p = k
      · subst h1; simp
      · rw [if_neg h1, ht c p hc hp]
        have e1 : (p < k + 1) = (p < k) := by
          apply propext; constructor <;> intro h <;> omega
        simp only [e1])
  dsimp only at key
  refine ⟨key.1, ?_⟩
  intro c p hc hp
  rw [key.2 c p hc hp, if_pos hp]

/-- Encode on a blob of shape `(1, C, H, W)`: length of the tensor and value of each cell. -/
theorem PrepareInput_spec (H W C : Nat) (tex : List Nat) (b : MemoryBlob)
    (hdims : b.dims = [1, C, H, W]) (hlen : b.data.length = C * (W * H)) :
    (PrepareInput tex b).data.length = C * (W * H) ∧
    ∀ c p, c < C → p < W * H →
      (PrepareInput tex b).data.getD (c * (W * H) + p) 0 =
        ucharToFloat (tex.getD (p * C + c) 0) := by
  rw [PrepareInput_data, hdims]
  exact encodePixels_spec tex C (W * H) b.data hlen

/-! ## Decode -/

theorem clampLow_length (d : List Float32) (j : Nat) : (clampLow d j).length = d.length := by
  unfold clampLow; split <;> simp

theorem clampHigh_length (d : List Float32) (j : Nat) : (clampHigh d j).length = d.length := by
  unfold clampHigh; split <;> simp

theorem clampLow_getD (d : List Float32) (j k : Nat) (hj : j < d.length) :
    (clampLow d j).getD k 0 =
      if k = j then (if d.getD j 0 < 0 then 0 else d.getD j 0) else d.getD k 0 := by
  unfold clampLow
  by_cases hk : k = j
  · subst hk
    by_cases h : d.getD k 0 < 0
    · rw [if_pos h, if_pos rfl, if_pos h]; exact getD_set_eq _ _ _ _ hj
    · rw [if_neg h, if_pos rfl, if_neg h]
  · by_cases h : d.getD j 0 < 0
    · rw [if_pos h, if_neg hk]; exact getD_set_ne _ _ _ _ _ (Ne.symm hk)
    · rw [if_neg h, if_neg hk]

theorem clampHigh_getD (d : List Float32) (j k : Nat) (hj : j < d.length) :
    (clampHigh d j).getD k 0 =
      if k = j then (if d.getD j 0 > 255 then 255 else d.getD j 0) else d.getD k 0 := by
  unfold clampHigh
  by_cases hk : k = j
  · subst hk
    by_cases h : d.getD k 0 > 255
    · rw [if_pos h, if_pos rfl, if_pos h]; exact getD_set_eq _ _ _ _ hj
    · rw [if_neg h, if_pos rfl, if_neg h]
  · by_cases h : d.getD j 0 > 255
    · rw [if_pos h, if_neg hk]; exact getD_set_ne _ _ _ _ _ (Ne.symm hk)
    · rw [if_neg h, if_neg hk]

/-- The two clamp statements in sequence amount to `clamp255` of the cell. -/
theorem clampBoth_getD (d : List Float32) (j k : Nat) (hj : j < d.length) :
    (clampHigh (clampLow d j) j).getD k 0 =
      if k = j then clamp255 (d.getD j 0) else d.getD k 0 := by
  rw [clampHigh_getD _ _ _ (by rw [clampLow_length]; exact hj), clampLow_getD _ _ _ hj,
    clampLow_getD _ _ _ hj]
  by_cases hk : k = j
  · simp only [hk, if_true, clamp255]
    by_cases h : d.getD j 0 < 0
    · simp only [h, if_true]; norm_num
    · simp only [h, if_false]
  · simp only [hk, if_false]

theorem clampBoth_length (d : List Float32) (j : Nat) :
    (clampHigh (clampLow d j) j).length = d.length := by
  rw [clampHigh_length, clampLow_length]

theorem decodePixel_fst_length (out : List Float32) (nc n i : Nat)
    (s : List Float32 × List Nat) :
    (decodePixel out nc n i s).1.length = s.1.length := by
  simp [decodePixel, clampHigh_length, clampLow_length]

theorem decodePixel_snd_eq (out : List Float32) (nc n i : Nat) (s : List Float32 × List Nat) :
    (decodePixel out nc n i s).2 =
      ((s.2.set (i * nc) (floatToUchar ((decodePixel out nc n i s).1.getD (i * nc) 0))).set
        (i * nc + 1) (floatToUchar ((decodePixel out nc n i s).1.getD (i * nc + 1) 0))).set
        (i * nc + 2) (floatToUchar ((decodePixel out nc n i s).1.getD (i * nc + 2) 0)) := rfl

theorem decodePixel_fst_getD (out : List Float32) (nc n i : Nat) (s : List Float32 × List Nat)
    (hd : i * nc + 2 < s.1.length) :
    (decodePixel out nc n i s).1.getD (i * nc) 0 = clamp255 (out.getD i 0) ∧
    (decodePixel out nc n i s).1.getD (i * nc + 1) 0 = clamp255 (out.getD (i + n) 0) ∧
    (decodePixel out nc n i s).1.getD (i * nc + 2) 0 = clamp255 (out.getD (i + 2 * n) 0) := by
  have e : (decodePixel out nc n i s).1 =
      clampHigh (clampLow (clampHigh (clampLow (clampHigh (clampLow
        (((s.1.set (i * nc) (out.getD i 0)).set (i * nc + 1) (out.getD (i + n) 0)).set
          (i * nc + 2) (out.getD (i + 2 * n) 0))
        (i * nc)) (i * nc)) (i * nc + 1)) (i * nc + 1)) (i * nc + 2)) (i * nc + 2) := rfl
  rw [e]
  have h0 : i * nc + 1 ≠ i * nc := by omega
  have h1 : i * nc + 2 ≠ i * nc := by omega
  have h2 : i * nc + 2 ≠ i * nc + 1 := by omega
  have g0 : i * nc < s.1.length := by omega
  refine ⟨?_, ?_, ?_⟩
  · rw [clampBoth_getD _ _ _ (by simp [clampBoth_length]; omega), if_neg (Ne.symm h1),
      clampBoth_getD _ _ _ (by simp [clampBoth_length]; omega), if_neg (Ne.symm h0),
      clampBoth_getD _ _ _ (by simp; omega), if_pos rfl,
      getD_set_ne _ _ _ _ _ h1, getD_set_ne _ _ _ _ _ h0, getD_set_eq _ _ _ _ g0]
  · rw [clampBoth_getD _ _ _ (by simp [clampBoth_length]; omega), if_neg (Ne.symm h2),
      clampBoth_getD _ _ _ (by simp [clampBoth_length]; omega), if_pos rfl,
      clampBoth_getD _ _ _ (by simp; omega), if_neg h0,
      getD_set_ne _ _ _ _ _ h2, getD_set_eq _ _ _ _ (by simp; omega)]
  · rw [clampBoth_getD _ _ _ (by simp [clampBoth_length]; omega), if_pos rfl,
      clampBoth_getD _ _ _ (by simp [clampBoth_length]; omega), if_neg h2,
      clampBoth_getD _ _ _ (by simp; omega), if_neg h1,
      getD_set_eq _ _ _ _ (by simp; omega)]

/-- Effect of the loop body for pixel `i` on the texture bytes, for 3 channels. -/
theorem decodePixel_texture (out : List Float32) (n i : Nat) (d : List Float32) (t : List Nat)
    (hd : i * 3 + 2 < d.length) (ht : i * 3 + 2 < t.length) :
    (decodePixel out 3 n i (d, t)).2.length = t.length ∧
    ∀ j, (decodePixel out 3 n i (d, t)).2.getD j 0 =
      if j = i * 3 then decodedByte (out.getD i 0)
      else if j = i * 3 + 1 then decodedByte (out.getD (i + n) 0)
      else if j = i * 3 + 2 then decodedByte (out.getD (i + 2 * n) 0)
      else t.getD j 0 := by
  obtain ⟨e0, e1, e2⟩ := decodePixel_fst_getD out 3 n i (d, t) hd
  rw [decodePixel_snd_eq, e0, e1, e2]
  refine ⟨by simp, ?_⟩
  intro j
  by_cases h2 : j = i * 3 + 2
  · subst h2
    rw [getD_set_eq _ _ _ _ (by simpa using ht)]
    simp [decodedByte]
  · rw [getD_set_ne _ _ _ _ _ (Ne.symm h2)]
    by_cases h1 : j = i * 3 + 1
    · subst h1
      rw [getD_set_eq _ _ _ _ (by simp; omega)]
      simp [decodedByte]
    · rw [getD_set_ne _ _ _ _ _ (Ne.symm h1)]
      by_cases h0 : j = i * 3
      · subst h0
        rw [getD_set_eq _ _ _ _ (by simp; omega)]
        simp [decodedByte]
      · rw [getD_set_ne _ _ _ _ _ (Ne.symm h0)]
        simp [h0, h1, h2]

/-- Decode on a blob of shape `(1, 3, H, W)`: every byte of the texture after the call. -/
theorem ProcessOutput_spec (H W : Nat) (b : MemoryBlob) (t : List Nat)
    (hdims : b.dims = [1, 3, H, W]) (ht : W * H * 3 ≤ t.length) :
    (ProcessOutput b t).length = t.length ∧
    (∀ p k, p < W * H → k < 3 →
      (ProcessOutput b t).getD (p * 3 + k) 0 = decodedByte (b.data.getD (p + k * (W * H)) 0)) ∧
    (∀ j, W * H * 3 ≤ j → (ProcessOutput b t).getD j 0 = t.getD j 0) := by
  have key := forLoop_invariant
    (fun m (s : List Float32 × List Nat) =>
      s.1.length = W * H * 3 ∧ s.2.length = t.length ∧
      (∀ p k, p < m → k < 3 →
        s.2.getD (p * 3 + k) 0 = decodedByte (b.data.getD (p + k * (W * H)) 0)) ∧
      (∀ j, m * 3 ≤ j → s.2.getD j 0 = t.getD j 0))
    (W * H) (decodePixel b.data 3 (W * H)) (List.replicate (W * H * 3) 0, t)
    ⟨by simp, rfl, by intro p k hp; omega, by intro j _; rfl⟩
    (by
      rintro i hi ⟨d, u⟩ ⟨hd, hu, hin, hout⟩
      simp only at hd hu hin hout
      have hs := decodePixel_texture b.data (W * H) i d u (by omega) (by omega)
      refine ⟨by rw [decodePixel_fst_length]; exact hd, by rw [hs.1]; exact hu, ?_, ?_⟩
      · intro p k hp hk
        rw [hs.2]
        by_cases hpi : p = i
        · subst hpi
          have hk3 : k = 0 ∨ k = 1 ∨ k = 2 := by omega
          rcases hk3 with rfl | rfl | rfl
          · simp
          · simp
          · simp [Nat.add_comm]
        · have hlt : p < i := by omega
          rw [if_neg (by omega), if_neg (by omega), if_neg (by omega)]
          exact hin p k hlt hk
      · intro j hj
        rw [hs.2, if_neg (by omega), if_neg (by omega), if_neg (by omega)]
        exact hout j (by omega))
  have e : ProcessOutput b t =
      (forLoop (W * H) (decodePixel b.data 3 (W * H)) (List.replicate (W * H * 3) 0, t)).2 := by
    simp [ProcessOutput, hdims]
  rw [e]
  exact ⟨key.2.1, key.2.2.1, key.2.2.2⟩

theorem decodedByte_eq (v : Float32) :
    decodedByte v = if v < 0 then 0 else if v > 255 then 255 else Int.toNat ⌊v⌋ := by
  unfold decodedByte clamp255 floatToUchar truncToInt
  by_cases h0 : v < 0
  · simp [h0]
  · by_cases h1 : v > 255
    · simp only [h0, h1, if_true, if_false]
      norm_num
      rfl
    · simp only [h0, h1, if_false]
      have hv0 : (0 : ℚ) ≤ v := not_lt.mp h0
      have hv1 : v ≤ 255 := not_lt.mp h1
      have f0 : (0 : Int) ≤ ⌊v⌋ := Int.floor_nonneg.mpr hv0
      have f1 : ⌊v⌋ < 256 := by
        rw [Int.floor_lt]
        have : v < 256 := lt_of_le_of_lt hv1 (by norm_num)
        exact_mod_cast this
      rw [Int.emod_eq_of_lt f0 f1]

theorem decodedByte_le (v : Float32) : decodedByte v ≤ 255 := by
  rw [decodedByte_eq]
  by_cases h0 : v < 0
  · simp [h0]
  · by_cases h1 : v > 255
    · simp [h0, h1]
    · simp only [h0, h1, if_false]
      have hv1 : v ≤ 255 := not_lt.mp h1
      have f1 : ⌊v⌋ < 256 := by
        rw [Int.floor_lt]
        have : v < 256 := lt_of_le_of_lt hv1 (by norm_num)
        exact_mod_cast this
      omega

theorem decodedByte_ucharToFloat (b : Nat) (hb : b < 256) : decodedByte (ucharToFloat b) = b := by
  rw [decodedByte_eq]
  unfold ucharToFloat
  have h0 : ¬ ((b : ℚ) < 0) := not_lt.mpr (Nat.cast_nonneg b)
  have h1 : ¬ ((b : ℚ) > 255) := by
    have : (b : ℚ) ≤ 255 := by exact_mod_cast (Nat.lt_succ_iff.mp hb)
    exact not_lt.mpr this
  simp [h0, h1]

/-! ## Channel conversions and the orchestrator -/

theorem dropAlpha_spec (n : Nat) : ∀ data : List Nat, data.length = n * 4 →
    (dropAlpha data).length = n * 3 ∧
    ∀ p k, p < n → k < 3 → (dropAlpha data).getD (p * 3 + k) 0 = data.getD (p * 4 + k) 0 := by
  induction n with
  | zero =>
    intro data h
    have : data = [] := List.length_eq_zero.mp (by simpa using h)
    subst this
    exact ⟨rfl, by intro p k hp; omega⟩
  | succ m ih =>
    intro data h
    match data, h with
    | r :: g :: b :: a :: rest, h =>
      have hrest : rest.length = m * 4 := by simp at h; omega
      obtain ⟨hl, hg⟩ := ih rest hrest
      refine ⟨by simp [dropAlpha, hl]; omega, ?_⟩
      intro p k hp hk
      cases p with
      | zero =>
        have hk3 : k = 0 ∨ k = 1 ∨ k = 2 := by omega
        rcases hk3 with rfl | rfl | rfl <;> simp [dropAlpha]
      | succ q =>
        have e1 : (q + 1) * 3 + k = (q * 3 + k) + 3 := by omega
        have e2 : (q + 1) * 4 + k = (q * 4 + k) + 4 := by omega
        rw [e1, e2]
        simp only [dropAlpha, List.getD_cons_succ]
        exact hg q k (by omega) hk
    | [], h => simp at h
    | [_], h => simp at h; omega
    | [_, _], h => simp at h; omega
    | [_, _, _], h => simp at h; omega

theorem addAlpha_spec (n : Nat) : ∀ data : List Nat, data.length = n * 3 →
    (addAlpha data).length = n * 4 ∧
    (∀ p k, p < n → k < 3 → (addAlpha data).getD (p * 4 + k) 0 = data.getD (p * 3 + k) 0) ∧
    (∀ p, p < n → (addAlpha data).getD (p * 4 + 3) 0 = 255) := by
  induction n with
  | zero =>
    intro data h
    have : data = [] := List.length_eq_zero.mp (by simpa using h)
    subst this
    exact ⟨rfl, by intro p k hp; omega, by intro p hp; omega⟩
  | succ m ih =>
    intro data h
    match data, h with
    | r :: g :: b :: rest, h =>
      have hrest : rest.length = m * 3 := by simp at h; omega
      obtain ⟨hl, hg, ha⟩ := ih rest hrest
      refine ⟨by simp [addAlpha, hl]; omega, ?_, ?_⟩
      · intro p k hp hk
        cases p with
        | zero =>
          have hk3 : k = 0 ∨ k = 1 ∨ k = 2 := by omega
          rcases hk3 with rfl | rfl | rfl <;> simp [addAlpha]
        | succ q =>
          have e1 : (q + 1) * 3 + k = (q * 3 + k) + 3 := by omega
          have e2 : (q + 1) * 4 + k = (q * 4 + k) + 4 := by omega
          rw [e1, e2]
          simp only [addAlpha, List.getD_cons_succ]
          exact hg q k (by omega) hk
      · intro p hp
        cases p with
        | zero => simp [addAlpha]
        | succ q =>
          have e2 : (q + 1) * 4 + 3 = (q * 4 + 3) + 4 := by omega
          rw [e2]
          simp only [addAlpha, List.getD_cons_succ]
          exact ha q (by omega)
    | [], h => simp at h
    | [_], h => simp at h; omega
    | [_, _], h => simp at h; omega

theorem Mat_total_natCast (H W c : Nat) : (Mat.mk (H : Int) (W : Int) c).total = H * W := by
  simp only [Mat.total]
  rw [← Int.natCast_mul]
  exact Int.toNat_natCast _

theorem getD_lt_of_forall_mem (l : List Nat) (j : Nat) (h : ∀ b ∈ l, b < 256) :
    l.getD j 0 < 256 := by
  by_cases hj : j < l.length
  · rw [List.getD_eq_getElem l 0 hj]
    exact h _ (List.getElem_mem hj)
  · rw [List.getD_eq_default _ _ (by omega)]
    decide

/-- One call of the orchestrator with an identity backend, on matching sizes. -/
theorem PerformInference_identity (H W : Nat) (inputData : List Nat) (minput : MemoryBlob)
    (Infer : MemoryBlob → MemoryBlob)
    (hin : inputData.length = H * W * 4) (hbytes : ∀ b ∈ inputData, b < 256)
    (hdims : minput.dims = [1, 3, H, W]) (hlen : minput.data.length = 3 * (W * H))
    (hid : ∀ b, Infer b = b) :
    (PerformInference ⟨H, W, 4⟩ minput Infer inputData).1 = ⟨H, W, 4⟩ ∧
    (PerformInference ⟨H, W, 4⟩ minput Infer inputData).2.length = H * W * 4 ∧
    (∀ p k, p < H * W → k < 3 →
      (PerformInference ⟨H, W, 4⟩ minput Infer inputData).2.getD (p * 4 + k) 0 =
        inputData.getD (p * 4 + k) 0) ∧
    (∀ p, p < H * W →
      (PerformInference ⟨H, W, 4⟩ minput Infer inputData).2.getD (p * 4 + 3) 0 = 255) := by
  have hWH : W * H = H * W := Nat.mul_comm W H
  have hrgb := dropAlpha_spec (H * W) inputData hin
  have henc := PrepareInput_spec H W 3 (dropAlpha inputData) minput hdims hlen
  have hdec := ProcessOutput_spec H W (PrepareInput (dropAlpha inputData) minput)
    (dropAlpha inputData) (by rw [PrepareInput_dims]; exact hdims) (by rw [hrgb.1, hWH])
  have hrgba := addAlpha_spec (H * W)
    (ProcessOutput (PrepareInput (dropAlpha inputData) minput) (dropAlpha inputData))
    (by rw [hdec.1, hrgb.1])
  have e : PerformInference ⟨H, W, 4⟩ minput Infer inputData =
      (⟨H, W, 4⟩, addAlpha
        (ProcessOutput (PrepareInput (dropAlpha inputData) minput) (dropAlpha inputData))) := by
    simp only [PerformInference, cvtColor_RGBA2RGB, cvtColor_RGB2RGBA, memcpy, hid,
      Mat_total_natCast]
    have t1 : List.take (H * W * 4) inputData = inputData :=
      List.take_of_length_le (le_of_eq hin)
    have t2 : List.take (H * W * 3)
        (ProcessOutput (PrepareInput (dropAlpha inputData) minput) (dropAlpha inputData)) =
        ProcessOutput (PrepareInput (dropAlpha inputData) minput) (dropAlpha inputData) :=
      List.take_of_length_le (le_of_eq (by rw [hdec.1, hrgb.1]))
    have t3 : List.take (H * W * 4) (addAlpha
        (ProcessOutput (PrepareInput (dropAlpha inputData) minput) (dropAlpha inputData))) =
        addAlpha
          (ProcessOutput (PrepareInput (dropAlpha inputData) minput) (dropAlpha inputData)) :=
      List.take_of_length_le (le_of_eq hrgba.1)
    rw [t1, t2, t3, List.drop_of_length_le (le_of_eq hin), List.append_nil]
  rw [e]
  refine ⟨rfl, hrgba.1, ?_, hrgba.2.2⟩
  intro p k hp hk
  rw [hrgba.2.1 p k hp hk, hdec.2.1 p k (by rw [hWH]; exact hp) hk, Nat.add_comm p,
    henc.2 k p hk (by rw [hWH]; exact hp),
    decodedByte_ucharToFloat _ (getD_lt_of_forall_mem _ _ ?_), hrgb.2 p k hp hk]
  intro b hb
  obtain ⟨j, hj, rfl⟩ := List.getElem_of_mem hb
  have hj3 : j < H * W * 3 := by rw [← hrgb.1]; exact hj
  obtain ⟨q, r, hq, hr, hqr⟩ := planar_surj hj3
  have := hrgb.2 q r hq hr
  rw [hqr, List.getD_eq_getElem _ 0 hj] at this
  rw [this]
  exact getD_lt_of_forall_mem _ _ hbytes

/-! ## Device registry -/

theorem cacheLoop_eq (l : List String) : ∀ g : Globals,
    l.foldl
      (fun g device =>
        if regex_match_GPU device then { g with ie := g.ie.SetConfigCacheDir device } else g)
      g = { g with ie := ⟨g.ie.config ++ cacheEntries l⟩ } := by
  induction l with
  | nil => intro g; simp [cacheEntries]
  | cons d ds ih =>
    intro g
    rw [List.foldl_cons, ih]
    by_cases h : regex_match_GPU d
    · simp [h, cacheEntries, Core.SetConfigCacheDir, List.filter_cons]
    · simp [h, cacheEntries, List.filter_cons]

theorem SetDeviceCache_eq (g : Globals) :
    SetDeviceCache g = { g with ie := ⟨g.ie.config ++ cacheEntries g.availableDevices⟩ } :=
  cacheLoop_eq g.availableDevices g

theorem joinLoop_eq (l : List String) : ∀ g : Globals,
    l.foldl
      (fun g device =>
        { g with allDevices := appendDevice g.availableDevices g.allDevices device })
      g = { g with allDevices := l.foldl (appendDevice g.availableDevices) g.allDevices } := by
  induction l with
  | nil => intro g; rfl
  | cons d ds ih => intro g; rw [List.foldl_cons, ih]; rfl

theorem InitializeOpenVINO_eq (g : Globals) (net : CNNNetwork) (L : List String) :
    InitializeOpenVINO g net L =
      { g with
        network := net
        availableDevices := L.reverse
        allDevices := L.reverse.foldl (appendDevice L.reverse) g.allDevices
        ie := ⟨g.ie.config ++ cacheEntries L.reverse⟩ } := by
  simp only [InitializeOpenVINO, joinLoop_eq, SetDeviceCache_eq]

theorem intercalate_go_append (sep : String) (l : List String) : ∀ acc a : String,
    String.intercalate.go (acc ++ a) sep l = acc ++ String.intercalate.go a sep l := by
  induction l with
  | nil => intro acc a; rfl
  | cons b bs ih =>
    intro acc a
    simp only [String.intercalate.go]
    rw [String.append_assoc, String.append_assoc, ih, ← String.append_assoc]

theorem intercalate_cons_cons (sep a b : String) (l : List String) :
    String.intercalate sep (a :: b :: l) = a ++ sep ++ String.intercalate sep (b :: l) := by
  simp only [String.intercalate, String.intercalate.go]
  exact intercalate_go_append sep l (a ++ sep) b

/-- The joining loop on a list whose last element does not occur earlier. -/
theorem joinFold_eq (avail : List String) (z : String) (hz : avail.getD (avail.length - 1) "" = z) :
    ∀ (ys : List String) (acc : String), z ∉ ys →
      (ys ++ [z]).foldl (appendDevice avail) acc = acc ++ String.intercalate "," (ys ++ [z]) := by
  intro ys
  induction ys with
  | nil =>
    intro acc _
    simp only [appendDevice, hz, List.nil_append, List.foldl_cons, List.foldl_nil, if_true,
      String.intercalate, String.intercalate.go, String.append_empty]
  | cons y ys ih =>
    intro acc hmem
    have hy : y ≠ z := fun h => hmem (by simp [h])
    have hys : z ∉ ys := fun h => hmem (by simp [h])
    rw [List.cons_append, List.foldl_cons, ih _ hys]
    have e : appendDevice avail acc y = acc ++ y ++ "," := by
      simp only [appendDevice, hz, hy, if_false]
    rw [e]
    cases ys with
    | nil =>
      rw [List.nil_append, intercalate_cons_cons]
      simp [String.append_assoc]
    | cons w ws =>
      rw [List.cons_append, intercalate_cons_cons]
      simp [String.append_assoc]

/-! ## Claims about the codec -/

/-- Claim C1: after `PrepareInput` on an interleaved byte buffer of length `H*W*C` and an
input tensor of shape `(1, C, H, W)`, the tensor cell `c*H*W + p` holds the byte
`buffer[p*C + c]` converted to float, unscaled, for every pixel `p < H*W` and channel
`c < C`; both accesses are inside their buffers. -/
theorem PrepareInput_planar_layout (H W C : Nat) (buffer : List Nat) (minput : MemoryBlob)
    (hbuf : buffer.length = H * W * C) (hdims : minput.dims = [1, C, H, W])
    (hlen : minput.data.length = C * H * W) (p c : Nat) (hp : p < H * W) (hc : c < C) :
    ∃ v : Nat, buffer[p * C + c]? = some v ∧
      (PrepareInput buffer minput).data[c * H * W + p]? = some (v : ℚ) := by
  have hWH : W * H = H * W := Nat.mul_comm W H
  have hidx : c * H * W = c * (W * H) := by rw [Nat.mul_assoc, hWH]
  have hlen2 : minput.data.length = C * (W * H) := by rw [hlen, Nat.mul_assoc, hWH]
  obtain ⟨hl, hv⟩ := PrepareInput_spec H W C buffer minput hdims hlen2
  have hp2 : p < W * H := by rw [hWH]; exact hp
  have hin : p * C + c < buffer.length := by rw [hbuf]; exact planar_lt hp hc
  refine ⟨buffer.getD (p * C + c) 0, getElem?_of_getD _ _ _ hin, ?_⟩
  rw [hidx, getElem?_of_getD _ _ 0 (by rw [hl]; exact planar_lt hc hp2), hv c p hc hp2]
  rfl

/-- Witness for C1 on the 1x1 RGB buffer `[10, 20, 30]`: the three planes hold
`10`, `20` and `30`. -/
theorem PrepareInput_planar_layout_witness :
    (∃ v : Nat, [10, 20, 30][0 * 3 + 0]? = some v ∧
      (PrepareInput [10, 20, 30] ⟨[1, 3, 1, 1], [0, 0, 0]⟩).data[0 * 1 * 1 + 0]? =
        some (v : ℚ)) ∧
    (∃ v : Nat, [10, 20, 30][0 * 3 + 1]? = some v ∧
      (PrepareInput [10, 20, 30] ⟨[1, 3, 1, 1], [0, 0, 0]⟩).data[1 * 1 * 1 + 0]? =
        some (v : ℚ)) ∧
    (∃ v : Nat, [10, 20, 30][0 * 3 + 2]? = some v ∧
      (PrepareInput [10, 20, 30] ⟨[1, 3, 1, 1], [0, 0, 0]⟩).data[2 * 1 * 1 + 0]? =
        some (v : ℚ)) :=
  ⟨PrepareInput_planar_layout 1 1 3 [10, 20, 30] ⟨[1, 3, 1, 1], [0, 0, 0]⟩ rfl rfl rfl 0 0
      (by decide) (by decide),
    PrepareInput_planar_layout 1 1 3 [10, 20, 30] ⟨[1, 3, 1, 1], [0, 0, 0]⟩ rfl rfl rfl 0 1
      (by decide) (by decide),
    PrepareInput_planar_layout 1 1 3 [10, 20, 30] ⟨[1, 3, 1, 1], [0, 0, 0]⟩ rfl rfl rfl 0 2
      (by decide) (by decide)⟩

/-- Claim C10: the index map `(p, c) ↦ c*H*W + p` of `PrepareInput` sends
`{0..H*W-1} x {0..C-1}` into `{0..C*H*W-1}` (and the read index `p*C + c` stays below
`H*W*C`), is injective and onto, and two interleaved buffers of length `H*W*C` that
`PrepareInput` encodes to the same tensor are equal. -/
theorem PrepareInput_lossless_transpose (H W C : Nat) :
    (∀ p c, p < H * W → c < C → c * (H * W) + p < C * (H * W) ∧ p * C + c < H * W * C) ∧
    (∀ p c p' c', p < H * W → c < C → p' < H * W → c' < C →
      c * (H * W) + p = c' * (H * W) + p' → p = p' ∧ c = c') ∧
    (∀ j, j < C * (H * W) → ∃ p c, p < H * W ∧ c < C ∧ c * (H * W) + p = j) ∧
    (∀ (b₁ b₂ : List Nat) (t₁ t₂ : MemoryBlob),
      b₁.length = H * W * C → b₂.length = H * W * C →
      t₁.dims = [1, C, H, W] → t₂.dims = [1, C, H, W] →
      t₁.data.length = C * (H * W) → t₂.data.length = C * (H * W) →
      (PrepareInput b₁ t₁).data = (PrepareInput b₂ t₂).data → b₁ = b₂) := by
  have hWH : W * H = H * W := Nat.mul_comm W H
  refine ⟨fun p c hp hc => ⟨planar_lt hc hp, planar_lt hp hc⟩, ?_, ?_, ?_⟩
  · intro p c p' c' hp _ hp' _ h
    have := planar_inj hp hp' h
    exact ⟨this.2, this.1⟩
  · intro j hj
    obtain ⟨c, p, hc, hp, h⟩ := planar_surj hj
    exact ⟨p, c, hp, hc, h⟩
  · intro b₁ b₂ t₁ t₂ h₁ h₂ d₁ d₂ l₁ l₂ heq
    have s₁ := PrepareInput_spec H W C b₁ t₁ d₁ (by rw [l₁, hWH])
    have s₂ := PrepareInput_spec H W C b₂ t₂ d₂ (by rw [l₂, hWH])
    apply List.ext_getElem (by rw [h₁, h₂])
    intro j hj₁ hj₂
    have hj : j < H * W * C := by rw [← h₁]; exact hj₁
    obtain ⟨p, c, hp, hc, hpc⟩ := planar_surj hj
    have e₁ := s₁.2 c p hc (by rw [hWH]; exact hp)
    have e₂ := s₂.2 c p hc (by rw [hWH]; exact hp)
    rw [heq, e₂, hpc] at e₁
    have e₃ : b₂.getD j 0 = b₁.getD j 0 := by
      have : ((b₂.getD j 0 : Nat) : ℚ) = ((b₁.getD j 0 : Nat) : ℚ) := e₁
      exact_mod_cast this
    rw [List.getD_eq_getElem _ 0 hj₁, List.getD_eq_getElem _ 0 hj₂] at e₃
    exact e₃.symm

/-- Witness for C10 at `H = 1`, `W = 2`, `C = 3`: cell 5 of the tensor is the image of a
pixel/channel pair, and the pair `(p, c) = (1, 2)` lands inside the 6 cells. -/
theorem PrepareInput_lossless_transpose_witness :
    (∃ p c, p < 1 * 2 ∧ c < 3 ∧ c * (1 * 2) + p = 5) ∧ 2 * (1 * 2) + 1 < 3 * (1 * 2) :=
  ⟨(PrepareInput_lossless_transpose 1 2 3).2.2.1 5 (by decide),
    ((PrepareInput_lossless_transpose 1 2 3).1 1 2 (by decide) (by decide)).1⟩

/-- Claim C2: after `ProcessOutput` on a finite output tensor of shape `(1, 3, H, W)`, the
byte stored for channel `k` of pixel `p` is the tensor value `v = tensor[p + k*H*W]`
clamped to `[0, 255]` (0 when `v < 0`, 255 when `v > 255`) and then truncated to an 8-bit
integer. -/
theorem ProcessOutput_clamps (H W : Nat) (moutput : MemoryBlob) (texture_data : List Nat)
    (hdims : moutput.dims = [1, 3, H, W]) (hlen : moutput.data.length = 3 * H * W)
    (htex : H * W * 3 ≤ texture_data.length) (p k : Nat) (hp : p < H * W) (hk : k < 3) :
    ∃ v : ℚ, moutput.data[p + k * H * W]? = some v ∧
      (ProcessOutput moutput texture_data)[p * 3 + k]? =
        some (if v < 0 then 0 else if v > 255 then 255 else Int.toNat ⌊v⌋) := by
  have hWH : W * H = H * W := Nat.mul_comm W H
  have hidx : k * H * W = k * (W * H) := by rw [Nat.mul_assoc, hWH]
  obtain ⟨hl, hv, _⟩ := ProcessOutput_spec H W moutput texture_data hdims (by rw [hWH]; exact htex)
  have hin : p + k * H * W < moutput.data.length := by
    have := planar_lt hk hp
    rw [hlen, Nat.mul_assoc, Nat.mul_assoc]
    omega
  refine ⟨moutput.data.getD (p + k * H * W) 0, getElem?_of_getD _ _ _ hin, ?_⟩
  rw [getElem?_of_getD _ _ 0 (by rw [hl]; omega), hv p k (by rw [hWH]; exact hp) hk,
    decodedByte_eq, hidx]

/-- Witness for C2: the planes `[-5]`, `[130]`, `[999]` decode to the bytes `0`, `130`
and `255`. -/
theorem ProcessOutput_clamps_witness :
    (ProcessOutput ⟨[1, 3, 1, 1], [-5, 130, 999]⟩ [7, 7, 7])[0 * 3 + 0]? = some 0 ∧
    (ProcessOutput ⟨[1, 3, 1, 1], [-5, 130, 999]⟩ [7, 7, 7])[0 * 3 + 1]? = some 130 ∧
    (ProcessOutput ⟨[1, 3, 1, 1], [-5, 130, 999]⟩ [7, 7, 7])[0 * 3 + 2]? = some 255 := by
  refine ⟨?_, ?_, ?_⟩
  · obtain ⟨v, hv, h⟩ := ProcessOutput_clamps 1 1 ⟨[1, 3, 1, 1], [-5, 130, 999]⟩ [7, 7, 7]
      rfl rfl (by decide) 0 0 (by decide) (by decide)
    have hv' : v = -5 := by simpa using hv.symm
    subst hv'
    rw [h]; norm_num
  · obtain ⟨v, hv, h⟩ := ProcessOutput_clamps 1 1 ⟨[1, 3, 1, 1], [-5, 130, 999]⟩ [7, 7, 7]
      rfl rfl (by decide) 0 1 (by decide) (by decide)
    have hv' : v = 130 := by simpa using hv.symm
    subst hv'
    rw [h]; norm_num; rfl
  · obtain ⟨v, hv, h⟩ := ProcessOutput_clamps 1 1 ⟨[1, 3, 1, 1], [-5, 130, 999]⟩ [7, 7, 7]
      rfl rfl (by decide) 0 2 (by decide) (by decide)
    have hv' : v = 999 := by simpa using hv.symm
    subst hv'
    rw [h]; norm_num

/-- Counterexample to C8 as stated, on a 1x2 image with tensor planes `[1, 2]`, `[3, 4]`,
`[5, 6]`.  On the 3-channel buffer that `PerformInference` hands to `ProcessOutput`, and
also on an RGBA-sized buffer holding alpha 255 at offset `0*4+3`, the byte at offset
`0*4+3` is overwritten with channel 0 of pixel 1 and is 2 after the call. -/
theorem ProcessOutput_alpha_offset_counterexample :
    ([10, 20, 30, 40, 50, 60][0 * 4 + 3]? = some 40 ∧
      (ProcessOutput ⟨[1, 3, 1, 2], [1, 2, 3, 4, 5, 6]⟩
        [10, 20, 30, 40, 50, 60])[0 * 4 + 3]? = some 2) ∧
    ([10, 20, 30, 255, 40, 50, 60, 255][0 * 4 + 3]? = some 255 ∧
      (ProcessOutput ⟨[1, 3, 1, 2], [1, 2, 3, 4, 5, 6]⟩
        [10, 20, 30, 255, 40, 50, 60, 255])[0 * 4 + 3]? = some 2) := by
  have e : decodedByte (2 : ℚ) = 2 := decodedByte_ucharToFloat 2 (by decide)
  have key : ∀ t : List Nat, 1 * 2 * 3 ≤ t.length →
      (ProcessOutput ⟨[1, 3, 1, 2], [1, 2, 3, 4, 5, 6]⟩ t)[0 * 4 + 3]? = some 2 := by
    intro t ht
    obtain ⟨hl, hv, _⟩ := ProcessOutput_spec 1 2 ⟨[1, 3, 1, 2], [1, 2, 3, 4, 5, 6]⟩ t rfl
      (by omega)
    have h : (ProcessOutput ⟨[1, 3, 1, 2], [1, 2, 3, 4, 5, 6]⟩ t).getD 3 0 =
        decodedByte (2 : ℚ) := hv 1 0 (by decide) (by decide)
    rw [show 0 * 4 + 3 = 3 from rfl, getElem?_of_getD _ _ 0 (by rw [hl]; omega), h, e]
  exact ⟨⟨rfl, key _ (by decide)⟩, ⟨rfl, key _ (by decide)⟩⟩

/-- Claim C8, amended: `ProcessOutput` on a finite tensor of shape `(1, 3, H, W)` stores the
three channel bytes of pixel `p` at the interleaved offsets `p*3+0`, `p*3+1`, `p*3+2` (the
stride is the tensor's channel count), keeps the length of the buffer, and leaves every
byte at an offset `≥ 3*H*W` as it was. -/
theorem ProcessOutput_write_positions (H W : Nat) (moutput : MemoryBlob)
    (texture_data : List Nat) (hdims : moutput.dims = [1, 3, H, W])
    (htex : H * W * 3 ≤ texture_data.length) :
    (ProcessOutput moutput texture_data).length = texture_data.length ∧
    (∀ p k, p < H * W → k < 3 →
      (ProcessOutput moutput texture_data)[p * 3 + k]? =
        some (decodedByte (moutput.data.getD (p + k * (H * W)) 0))) ∧
    (∀ j, H * W * 3 ≤ j → (ProcessOutput moutput texture_data)[j]? = texture_data[j]?) := by
  have hWH : W * H = H * W := Nat.mul_comm W H
  obtain ⟨hl, hv, hr⟩ :=
    ProcessOutput_spec H W moutput texture_data hdims (by rw [hWH]; exact htex)
  rw [hWH] at hv hr
  refine ⟨hl, ?_, ?_⟩
  · intro p k hp hk
    rw [getElem?_of_getD _ _ 0 (by rw [hl]; omega), hv p k hp hk]
  · intro j hj
    by_cases hjl : j < texture_data.length
    · rw [getElem?_of_getD _ _ 0 (by rw [hl]; exact hjl), getElem?_of_getD _ _ 0 hjl, hr j hj]
    · rw [List.getElem?_eq_none (by rw [hl]; omega), List.getElem?_eq_none (by omega)]

/-- Witness for the amended C8 on the 1x2 image of the counterexample: pixel 1, channel 0
is stored at offset `1*3+0`, and offset 7 keeps its byte. -/
theorem ProcessOutput_write_positions_witness :
    (ProcessOutput ⟨[1, 3, 1, 2], [1, 2, 3, 4, 5, 6]⟩
      [10, 20, 30, 255, 40, 50, 60, 255])[1 * 3 + 0]? =
      some (decodedByte ((([1, 2, 3, 4, 5, 6] : List ℚ)).getD (1 + 0 * (1 * 2)) 0)) ∧
    (ProcessOutput ⟨[1, 3, 1, 2], [1, 2, 3, 4, 5, 6]⟩
      [10, 20, 30, 255, 40, 50, 60, 255])[7]? = [10, 20, 30, 255, 40, 50, 60, 255][7]? :=
  ⟨(ProcessOutput_write_positions 1 2 ⟨[1, 3, 1, 2], [1, 2, 3, 4, 5, 6]⟩
      [10, 20, 30, 255, 40, 50, 60, 255] rfl (by decide)).2.1 1 0 (by decide) (by decide),
    (ProcessOutput_write_positions 1 2 ⟨[1, 3, 1, 2], [1, 2, 3, 4, 5, 6]⟩
      [10, 20, 30, 255, 40, 50, 60, 255] rfl (by decide)).2.2 7 (by decide)⟩

/-! ## Claim about the orchestrator -/

/-- Claim C3: with an identity-like backend (output tensor equal to input tensor, shape
`(1, 3, H, W)`), `PerformInference` on an RGBA buffer of `H*W*4` bytes returns a buffer of
the same length in which every pixel has the R, G, B bytes it had before the call at
offsets `p*4+0`, `p*4+1`, `p*4+2`, and alpha 255 at offset `p*4+3`. -/
theorem PerformInference_round_trip (H W : Nat) (inputData : List Nat) (minput : MemoryBlob)
    (Infer : MemoryBlob → MemoryBlob)
    (hin : inputData.length = H * W * 4) (hbytes : ∀ b ∈ inputData, b < 256)
    (hdims : minput.dims = [1, 3, H, W]) (hlen : minput.data.length = 3 * H * W)
    (hid : ∀ b, Infer b = b) :
    (PerformInference ⟨H, W, 4⟩ minput Infer inputData).2.length = H * W * 4 ∧
    ∀ p, p < H * W →
      (PerformInference ⟨H, W, 4⟩ minput Infer inputData).2[p * 4 + 0]? =
        inputData[p * 4 + 0]? ∧
      (PerformInference ⟨H, W, 4⟩ minput Infer inputData).2[p * 4 + 1]? =
        inputData[p * 4 + 1]? ∧
      (PerformInference ⟨H, W, 4⟩ minput Infer inputData).2[p * 4 + 2]? =
        inputData[p * 4 + 2]? ∧
      (PerformInference ⟨H, W, 4⟩ minput Infer inputData).2[p * 4 + 3]? = some 255 := by
  obtain ⟨_, hl, hrgb, ha⟩ := PerformInference_identity H W inputData minput Infer hin hbytes
    hdims (by rw [hlen, Nat.mul_assoc, Nat.mul_comm H W]) hid
  refine ⟨hl, ?_⟩
  intro p hp
  have key : ∀ k, k < 3 →
      (PerformInference ⟨H, W, 4⟩ minput Infer inputData).2[p * 4 + k]? =
        inputData[p * 4 + k]? := by
    intro k hk
    rw [getElem?_of_getD _ _ 0 (by rw [hl]; omega), getElem?_of_getD _ _ 0 (by rw [hin]; omega),
      hrgb p k hp hk]
  refine ⟨key 0 (by decide), key 1 (by decide), key 2 (by decide), ?_⟩
  rw [getElem?_of_getD _ _ 0 (by rw [hl]; omega), ha p hp]

/-- Witness for C3 on a 2x2 mid-gray image with alpha 64: pixel 3 keeps its R, G, B
bytes and gets alpha 255. -/
theorem PerformInference_round_trip_witness :
    (PerformInference ⟨(2 : Nat), (2 : Nat), 4⟩ ⟨[1, 3, 2, 2], List.replicate 12 0⟩ id
      [128, 128, 128, 64, 128, 128, 128, 64, 128, 128, 128, 64, 128, 128, 128, 64]).2[3 * 4 + 0]?
      = [128, 128, 128, 64, 128, 128, 128, 64, 128, 128, 128, 64, 128, 128, 128, 64][3 * 4 + 0]? ∧
    (PerformInference ⟨(2 : Nat), (2 : Nat), 4⟩ ⟨[1, 3, 2, 2], List.replicate 12 0⟩ id
      [128, 128, 128, 64, 128, 128, 128, 64, 128, 128, 128, 64, 128, 128, 128, 64]).2[3 * 4 + 3]?
      = some 255 :=
  have h := (PerformInference_round_trip 2 2
    [128, 128, 128, 64, 128, 128, 128, 64, 128, 128, 128, 64, 128, 128, 128, 64]
    ⟨[1, 3, 2, 2], List.replicate 12 0⟩ id rfl (by decide) rfl rfl (fun _ => rfl)).2 3
    (by decide)
  ⟨h.1, h.2.2.2⟩

/-! ## Claims about the device registry -/

/-- Claim C4, evaluated at the failing input: for the backend list `[A, B, A]`, starting
from the initial state, the loop of lines 81-84 compares each device with the last entry by
value, so the first `A` gets no comma and the exposed string is `AB,A`, while the
comma-joined reversed list is `A,B,A`. -/
theorem deviceListing_repeated_counterexample :
    GetAvailableDevices (InitializeOpenVINO Globals.initial ⟨[]⟩ ["A", "B", "A"]) = "AB,A" ∧
    String.intercalate "," (["A", "B", "A"].reverse) = "A,B,A" := by
  decide

/-- Where the listing loop agrees with the comma-joined list: starting from an empty
`allDevices`, for a backend list whose first identifier does not occur again in the list,
`InitializeOpenVINO` exposes the reverse of the backend order, and the exposed string is
those identifiers in reversed order joined by single commas with no trailing separator. -/
theorem deviceListing_reversed_joined (g : Globals) (net : CNNNetwork) (L : List String)
    (hempty : g.allDevices = "") (hfirst : ∀ a rest, L = a :: rest → a ∉ rest) :
    (InitializeOpenVINO g net L).availableDevices = L.reverse ∧
    GetAvailableDevices (InitializeOpenVINO g net L) = String.intercalate "," L.reverse := by
  rw [InitializeOpenVINO_eq]
  refine ⟨rfl, ?_⟩
  show L.reverse.foldl (appendDevice L.reverse) g.allDevices = _
  rw [hempty]
  cases L with
  | nil => rfl
  | cons a rest =>
    have hz : (List.reverse (a :: rest)).getD ((List.reverse (a :: rest)).length - 1) "" = a := by
      simp [List.getD_eq_getElem?_getD]
    have hmem : a ∉ rest.reverse := by
      rw [List.mem_reverse]; exact hfirst a rest rfl
    have := joinFold_eq (List.reverse (a :: rest)) a hz rest.reverse "" hmem
    rw [List.reverse_cons]
    rw [List.reverse_cons] at this
    rw [this]
    exact String.empty_append _

/-- The backend list `[A, B, C]` is exposed as `C,B,A`. -/
theorem deviceListing_reversed_joined_witness :
    (InitializeOpenVINO Globals.initial ⟨[]⟩ ["A", "B", "C"]).availableDevices = ["C", "B", "A"] ∧
    GetAvailableDevices (InitializeOpenVINO Globals.initial ⟨[]⟩ ["A", "B", "C"]) = "C,B,A" :=
  deviceListing_reversed_joined Globals.initial ⟨[]⟩ ["A", "B", "C"] rfl
    (by intro a rest h; cases h; decide)

/-- Claim C9, evaluated at the failing input: initializing twice with the backend list
`[CPU, GPU]` leaves the exposed sequence fresh but the exposed string is the second
listing appended to the first, `GPU,CPUGPU,CPU`, while one initialization gives
`GPU,CPU`. -/
theorem reinitialize_appends_listing :
    (InitializeOpenVINO (InitializeOpenVINO Globals.initial ⟨[]⟩ ["CPU", "GPU"]) ⟨[]⟩
      ["CPU", "GPU"]).availableDevices = ["GPU", "CPU"] ∧
    GetAvailableDevices (InitializeOpenVINO (InitializeOpenVINO Globals.initial ⟨[]⟩
      ["CPU", "GPU"]) ⟨[]⟩ ["CPU", "GPU"]) = "GPU,CPUGPU,CPU" ∧
    GetAvailableDevices (InitializeOpenVINO Globals.initial ⟨[]⟩ ["CPU", "GPU"]) = "GPU,CPU" := by
  decide

/-! ## Claims about device selection and reshape -/

theorem toSizeT_of_nonneg (x : Int) (h0 : 0 ≤ x) (h1 : x < 2 ^ 31) : toSizeT x = x.toNat := by
  unfold toSizeT
  rw [Int.emod_eq_of_lt h0 (lt_trans h1 (by norm_num))]

theorem toSizeT_of_neg (x : Int) (h0 : x < 0) (h1 : -2 ^ 31 ≤ x) : 2 ^ 63 ≤ toSizeT x := by
  unfold toSizeT
  have e : x % 2 ^ 64 = x + 2 ^ 64 := by
    rw [← Int.add_emod_self]
    exact Int.emod_eq_of_lt (by omega) (by omega)
  rw [e]
  omega

theorem UploadModelToDevice_of_getElem? (g : Globals) (i : Int) (d : String)
    (h : g.availableDevices[toSizeT i]? = some d) :
    UploadModelToDevice g i =
      Outcome.returns
        ({ g with
            currentDevice := d
            executable_network := some ⟨g.network, d⟩
            infer_request := some ⟨⟨g.network, d⟩⟩ }, d) := by
  simp [UploadModelToDevice, h, Core.LoadNetwork, ExecutableNetwork.CreateInferRequest]

theorem UploadModelToDevice_of_none (g : Globals) (i : Int)
    (h : g.availableDevices[toSizeT i]? = none) :
    UploadModelToDevice g i = Outcome.undefinedBehaviour := by
  simp [UploadModelToDevice, h]

/-- Counterexample to C5 as stated: with the one-device list `[CPU]`, selecting index 1 is
an unchecked out-of-range read; the call yields no returned result, so no error is
reported and no state is guaranteed. -/
theorem UploadModelToDevice_out_of_range_counterexample :
    UploadModelToDevice (InitializeOpenVINO Globals.initial ⟨[]⟩ ["CPU"]) 1 =
      Outcome.undefinedBehaviour ∧
    ¬ ∃ r, UploadModelToDevice (InitializeOpenVINO Globals.initial ⟨[]⟩ ["CPU"]) 1 =
      Outcome.returns r := by
  have h : UploadModelToDevice (InitializeOpenVINO Globals.initial ⟨[]⟩ ["CPU"]) 1 =
      Outcome.undefinedBehaviour := by decide
  refine ⟨h, ?_⟩
  rintro ⟨r, hr⟩
  rw [h] at hr
  cases hr

/-- Claim C5, amended: after `InitializeOpenVINO` on a backend list of length `n`, for an
`int` index `i` with `0 ≤ i < n` `UploadModelToDevice` returns the `i`-th identifier of the
exposed reversed list, which is the backend's device at position `n-1-i`, records it as
current device and binds the executable network and the request to it; for every other
index the vector is read out of range without a check, and the call has no defined
result. -/
theorem UploadModelToDevice_selects (g₀ : Globals) (net : CNNNetwork) (L : List String)
    (i : Int) (hlo : -2 ^ 31 ≤ i) (hhi : i < 2 ^ 31) (hsize : L.length < 2 ^ 63) :
    (0 ≤ i ∧ i < L.length →
      ∃ d g', L[L.length - 1 - i.toNat]? = some d ∧
        (InitializeOpenVINO g₀ net L).availableDevices[i.toNat]? = some d ∧
        UploadModelToDevice (InitializeOpenVINO g₀ net L) i = Outcome.returns (g', d) ∧
        g'.currentDevice = d ∧
        g'.executable_network = some ⟨net, d⟩ ∧
        g'.infer_request = some ⟨⟨net, d⟩⟩) ∧
    (¬ (0 ≤ i ∧ i < L.length) →
      UploadModelToDevice (InitializeOpenVINO g₀ net L) i = Outcome.undefinedBehaviour) := by
  have havail : (InitializeOpenVINO g₀ net L).availableDevices = L.reverse := by
    rw [InitializeOpenVINO_eq]
  have hnet : (InitializeOpenVINO g₀ net L).network = net := by
    rw [InitializeOpenVINO_eq]
  constructor
  · rintro ⟨h0, h1⟩
    have hi : i.toNat < L.length := by omega
    have hrev : L.reverse[i.toNat]? = L[L.length - 1 - i.toNat]? := List.getElem?_reverse hi
    have hsome : L[L.length - 1 - i.toNat]? = some (L.getD (L.length - 1 - i.toNat) "") :=
      getElem?_of_getD _ _ _ (by omega)
    have hget : (InitializeOpenVINO g₀ net L).availableDevices[toSizeT i]? =
        some (L.getD (L.length - 1 - i.toNat) "") := by
      rw [havail, toSizeT_of_nonneg i h0 hhi, hrev, hsome]
    refine ⟨L.getD (L.length - 1 - i.toNat) "", _, hsome, ?_,
      UploadModelToDevice_of_getElem? _ i _ hget, rfl, ?_, ?_⟩
    · rw [havail, hrev, hsome]
    · simp [hnet]
    · simp [hnet]
  · intro h
    apply UploadModelToDevice_of_none
    rw [havail]
    apply List.getElem?_eq_none
    rw [List.length_reverse]
    by_cases h0 : 0 ≤ i
    · rw [toSizeT_of_nonneg i h0 hhi]
      have : ¬ i < L.length := fun h1 => h ⟨h0, h1⟩
      omega
    · have := toSizeT_of_neg i (by omega) hlo
      omega

/-- Witness for the amended C5: with the backend list `[A, B, C]`, index 0 selects `C`,
the backend's device at position 2. -/
theorem UploadModelToDevice_selects_witness :
    ∃ d g', ["A", "B", "C"][["A", "B", "C"].length - 1 - (0 : Int).toNat]? = some d ∧
      (InitializeOpenVINO Globals.initial ⟨[]⟩ ["A", "B", "C"]).availableDevices[(0 : Int).toNat]?
        = some d ∧
      UploadModelToDevice (InitializeOpenVINO Globals.initial ⟨[]⟩ ["A", "B", "C"]) 0 =
        Outcome.returns (g', d) ∧
      g'.currentDevice = d ∧
      g'.executable_network = some ⟨⟨[]⟩, d⟩ ∧
      g'.infer_request = some ⟨⟨⟨[]⟩, d⟩⟩ :=
  (UploadModelToDevice_selects Globals.initial ⟨[]⟩ ["A", "B", "C"] 0 (by decide) (by decide)
    (by decide)).1 ⟨by decide, by decide⟩

/-- Claim C6: for positive `int` width and height and a first input of rank-4 shape
`(b, C, h0, w0)`, `SetInputDims` returns, the shapes it passes to `network.reshape` are
`(1, C, height, width)` for the first input and the unchanged shapes for the other inputs,
and the texture is re-created with `height` rows, `width` columns and 4 byte channels. -/
theorem SetInputDims_first_input_shape (g : Globals) (width height : Int) (name : String)
    (b C h₀ w₀ : Nat) (rest : List (String × SizeVector))
    (hshapes : g.network.inputShapes = (name, [b, C, h₀, w₀]) :: rest)
    (hw : 0 < width) (hh : 0 < height) (hwi : width < 2 ^ 31) (hhi : height < 2 ^ 31) :
    ∃ g', SetInputDims g width height = Outcome.returns g' ∧
      g'.network.inputShapes = (name, [1, C, height.toNat, width.toNat]) :: rest ∧
      g'.texture = ⟨height, width, 4⟩ := by
  refine ⟨{ g with
      network := ⟨(name, [1, C, toSizeT height, toSizeT width]) :: rest⟩
      texture := ⟨height, width, 4⟩ }, ?_, ?_, rfl⟩
  · simp [SetInputDims, hshapes, CNNNetwork.reshape, mapAssign]
  · simp [toSizeT_of_nonneg _ (le_of_lt hw) hwi, toSizeT_of_nonneg _ (le_of_lt hh) hhi]

/-- Witness for C6: width 64 and height 48 on a first input `(7, 3, 10, 20)` give the
shape `(1, 3, 48, 64)`, leave the second input alone, and a 48x64 texture of 4 channels. -/
theorem SetInputDims_first_input_shape_witness :
    ∃ g', SetInputDims { Globals.initial with
        network := ⟨[("data", [7, 3, 10, 20]), ("mask", [1, 2])]⟩ } 64 48 =
        Outcome.returns g' ∧
      g'.network.inputShapes =
        ("data", [1, 3, (48 : Int).toNat, (64 : Int).toNat]) :: [("mask", [1, 2])] ∧
      g'.texture = ⟨48, 64, 4⟩ :=
  SetInputDims_first_input_shape
    { Globals.initial with network := ⟨[("data", [7, 3, 10, 20]), ("mask", [1, 2])]⟩ }
    64 48 "data" 7 3 10 20 [("mask", [1, 2])] rfl (by decide) (by decide) (by decide)
    (by decide)

/-! ## Claim about the device cache -/

theorem regex_match_GPU_eq (d : String) :
    regex_match_GPU d = (beginsWithGPU d && noLineTerminator d) := by
  rcases d with ⟨l⟩
  unfold regex_match_GPU beginsWithGPU noLineTerminator
  simp only
  split
  · next rest =>
    have hp : ['G', 'P', 'U'].isPrefixOf
        ('G' :: 'P' :: 'U' :: rest) = true := by
      rw [List.isPrefixOf_iff_prefix]
      exact ⟨rest, rfl⟩
    rw [hp]
    simp only [List.all_cons, Bool.true_and]
    have h1 : (('G' : Char) != Char.ofNat 10 && ('G' : Char) != Char.ofNat 13) = true := by
      decide
    have h2 : (('P' : Char) != Char.ofNat 10 && ('P' : Char) != Char.ofNat 13) = true := by
      decide
    have h3 : (('U' : Char) != Char.ofNat 10 && ('U' : Char) != Char.ofNat 13) = true := by
      decide
    rw [h1, h2, h3]
    simp
  · next h =>
    have hp : ['G', 'P', 'U'].isPrefixOf l = false := by
      rw [Bool.eq_false_iff]
      intro hc
      rw [List.isPrefixOf_iff_prefix] at hc
      obtain ⟨t, ht⟩ := hc
      exact h t ht.symm
    rw [hp]
    rfl

/-- Counterexample to C7 as stated: the identifier `GPU` followed by a line feed begins
with `GPU`, yet `SetDeviceCache` sets no cache directory for it. -/
theorem SetDeviceCache_line_feed_counterexample :
    beginsWithGPU "GPU\n" = true ∧
    (SetDeviceCache { Globals.initial with availableDevices := ["GPU\n"] }).ie.config = [] := by
  decide

/-- Claim C7, amended: `SetDeviceCache` sets the cache directory, once per list entry and in
list order, for exactly the enumerated devices whose identifier begins with `GPU` and
contains no line terminator (the identifiers fully matched by `(GPU)(.*)`), and changes
nothing else; for `[CPU, GPU.0, GPU.1]` these are `GPU.0` and `GPU.1`. -/
theorem SetDeviceCache_configures_GPU_family (g : Globals) :
    SetDeviceCache g =
      { g with
        ie := ⟨g.ie.config ++
          (g.availableDevices.filter (fun d => beginsWithGPU d && noLineTerminator d)).map
            (fun d => (d, "CACHE_DIR", "cache"))⟩ } ∧
    (SetDeviceCache { Globals.initial with
        availableDevices := ["CPU", "GPU.0", "GPU.1"] }).ie.config =
      [("GPU.0", "CACHE_DIR", "cache"), ("GPU.1", "CACHE_DIR", "cache")] := by
  refine ⟨?_, by decide⟩
  rw [SetDeviceCache_eq]
  have e : regex_match_GPU = fun d => beginsWithGPU d && noLineTerminator d :=
    funext regex_match_GPU_eq
  simp only [cacheEntries, e]

end OpenVINOPlugin
